import Mathlib

/-!
Verification of the budget-constrained iterative refinement engine of the
prompt-improver CLI: the self-refine convergence loop (`self-refine.ts`),
the progressive enhancement pipeline (`progressive-enhancer`), and the
response cache backing both.

Modelling conventions (shallow embedding):
* JavaScript numbers used as quality scores and thresholds are modelled as
  exact rationals (`ℚ`); the engine only compares and subtracts scores, so
  `ℚ` mirrors the arithmetic exactly except for float rounding at threshold
  boundaries, which no statement here depends on.
* Effects are made explicit: the oracle (Claude CLI) becomes input streams
  indexed by call number; `Date.now()` becomes an explicit integer-time
  parameter; the mutable caches become explicit state values.
* Wall-clock bookkeeping fields (`timeMs`, `totalTimeMs`) and console
  output are omitted: no property mentions them.
* String operations are re-implemented structurally over `String.data`
  (lists of characters) so that concrete runs evaluate inside the kernel;
  they agree with the JavaScript originals on the ASCII texts used here.
* The static analyzer (`analyzePrompt`, out of scope per the spec) enters
  the loop only through its baseline overall score, modelled as a `ℚ`
  parameter named `baseline`.
-/

/-! ## Character-list string helpers (JS `includes`, `split`, `toLowerCase`, `trim`) -/

/-- Does `pat` occur at the head of `l`? (helper for substring search). -/
def startsWithChars : List Char → List Char → Bool
  | [], _ => true
  | _ :: _, [] => false
  | p :: ps, c :: cs => p == c && startsWithChars ps cs

/-- Does `pat` occur anywhere in `l`? (JS `String.prototype.includes`). -/
def containsChars (pat : List Char) : List Char → Bool
  | [] => pat.isEmpty
  | c :: cs => startsWithChars pat (c :: cs) || containsChars pat cs

/-- JS `s.includes(pat)`. -/
def containsSub (s pat : String) : Bool :=
  containsChars pat.data s.data

/-- JS `s.toLowerCase()` (ASCII-faithful). -/
def lowerStr (s : String) : String :=
  ⟨s.data.map Char.toLower⟩

/-- Number of non-overlapping occurrences of `pat` in `l`, leftmost first;
`s.split(pat).length = countOccChars pat s + 1` in JS. -/
def countOccChars (pat : List Char) : List Char → ℕ
  | [] => 0
  | c :: cs =>
    if pat ≠ [] && startsWithChars pat (c :: cs) then
      countOccChars pat (List.drop (pat.length - 1) cs) + 1
    else
      countOccChars pat cs
termination_by l => l.length
decreasing_by
  all_goals simp only [List.length_drop, List.length_cons]
  all_goals omega

/-- Occurrence count lifted to `String`. -/
def countOcc (s pat : String) : ℕ :=
  countOccChars pat.data s.data

/-- Number of lines, i.e. JS `s.split('\n').length` = newline count + 1. -/
def lineCount (s : String) : ℕ :=
  s.data.countP (· == '\n') + 1

/-- Whitespace class of the JS regexp `\s` (common members). -/
def isJsWhitespace (c : Char) : Bool :=
  c == ' ' || c == '\t' || c == '\n' || c == '\r' || c == '\x0b' || c == '\x0c' || c == '\u00A0'

/-- Does the JS regexp `/\d+\.\s/` match? A digit directly followed by `'.'`
and a whitespace character witnesses a match, and conversely. -/
def hasNumberedMarker : List Char → Bool
  | c1 :: c2 :: c3 :: rest =>
    (c1.isDigit && c2 == '.' && isJsWhitespace c3) || hasNumberedMarker (c2 :: c3 :: rest)
  | _ => false

/-- JS `s.trim()` (strip leading and trailing whitespace, ASCII-faithful). -/
def jsTrim (s : String) : String :=
  ⟨((s.data.dropWhile isJsWhitespace).reverse.dropWhile isJsWhitespace).reverse⟩

/-! ## Data model of the self-refine loop (`self-refine.ts`) -/

/-- `SelfCritiqueResult` from `self-refine.ts` (scores are 0-10 JS numbers,
modelled as `ℚ`). -/
structure SelfCritiqueResult where
  score : ℚ
  clarity : ℚ
  effectiveness : ℚ
  completeness : ℚ
  improvements : List String
  concerns : List String
  recommendation : String
  shouldContinue : Bool
deriving DecidableEq, Repr

/-- `RefinementIteration` from `self-refine.ts`; the pure static-analysis
snapshot and the wall-clock `timeMs` field are omitted (no property uses
them). -/
structure RefinementIteration where
  iteration : ℕ
  prompt : String
  critique : SelfCritiqueResult
  improvementsMade : List String
  qualityGain : ℚ
deriving DecidableEq, Repr

/-- The budget fields of `ImprovementConfig` (`config.ts`) consumed by the
loop and the pipeline. -/
structure ImprovementConfig where
  targetQuality : ℚ
  maxIterations : ℕ
  maxClaudeCalls : ℕ
deriving DecidableEq, Repr

/-- `SelfRefineResult` from `self-refine.ts`. -/
structure SelfRefineResult where
  finalPrompt : String
  iterations : List RefinementIteration
  totalIterations : ℕ
  finalQuality : ℚ
  totalQualityGain : ℚ
  totalClaudeCalls : ℕ
  convergenceReason : String
deriving DecidableEq, Repr

/-- The external oracle as explicit response streams: `critiques n` is the
critique produced for the loop's `n`-th critique call (already passed
through `getCritique`'s parsing and sanitisation), and `improves n` is the
response to the `n`-th improvement call, with `none` modelling a failed
`callClaude` (the `catch` branch of `improvePromptIteration`). -/
structure LoopOracle where
  critiques : ℕ → SelfCritiqueResult
  improves : ℕ → Option String

/-- `shouldContinueRefinement`'s diminishing-returns test
(`self-refine.ts` lines 239-248). -/
def diminishingReturns (iterations : List RefinementIteration)
    (latest : RefinementIteration) : Bool :=
  if 2 ≤ iterations.length then
    match iterations.get? (iterations.length - 2) with
    | some prev => decide (latest.critique.score - prev.critique.score < 3/10)
    | none => false
  else false

/-- `shouldContinueRefinement` (`self-refine.ts` lines 215-256): the two
early returns for an empty/absent latest iteration are merged into the
`none` case of `getLast?`. -/
def shouldContinueRefinement (iterations : List RefinementIteration)
    (config : ImprovementConfig) : Bool × String :=
  match iterations.getLast? with
  | none => (true, "no_iterations_yet")
  | some latest =>
    if config.targetQuality ≤ latest.critique.score then (false, "quality_achieved")
    else if config.maxIterations ≤ iterations.length then (false, "max_iterations")
    else if diminishingReturns iterations latest then (false, "diminishing_returns")
    else if latest.critique.shouldContinue = false then (false, "claude_recommendation")
    else (true, "continue_improving")

/-- The `RefinementIteration` record pushed by one iteration of
`selfRefinePrompt` (lines 296-306); `b` is the static baseline score. -/
def mkRecord (o : LoopOracle) (b : ℚ) (p : String)
    (L : List RefinementIteration) : RefinementIteration :=
  { iteration := L.length + 1
    prompt := p
    critique := o.critiques L.length
    improvementsMade := (o.critiques L.length).improvements
    qualityGain := (o.critiques L.length).score -
      (match L.getLast? with
       | some last => last.critique.score
       | none => b) }

/-- The prompt entering the next iteration: `improvePromptIteration`
returns its input prompt when the oracle call fails (lines 203-210). -/
def nextPrompt (o : LoopOracle) (p : String) (n : ℕ) : String :=
  match o.improves n with
  | some s => s
  | none => p

/-- The result returned from inside the `while` loop (lines 318-326);
`c` is the value of `claudeCalls` before this iteration's critique call. -/
def stopResult (o : LoopOracle) (cfg : ImprovementConfig) (b : ℚ) (p : String)
    (c : ℕ) (L : List RefinementIteration) : SelfRefineResult :=
  { finalPrompt := p
    iterations := L ++ [mkRecord o b p L]
    totalIterations := (L ++ [mkRecord o b p L]).length
    finalQuality := (o.critiques L.length).score
    totalQualityGain := (o.critiques L.length).score - b
    totalClaudeCalls := c + 1
    convergenceReason :=
      if (c : ℤ) + 1 ≥ (cfg.maxClaudeCalls : ℤ) - 1 then "claude_limit"
      else (shouldContinueRefinement L cfg).2 }

/-- The fallback result built after the `while` loop exits (lines 337-346);
JS `x || y` treats the score `0` as falsy, which the `if s = 0` mirrors. -/
def selfRefineFallback (b : ℚ) (p : String) (c : ℕ)
    (L : List RefinementIteration) : SelfRefineResult :=
  { finalPrompt := p
    iterations := L
    totalIterations := L.length
    finalQuality :=
      match L.getLast? with
      | some last => if last.critique.score = 0 then b else last.critique.score
      | none => b
    totalQualityGain :=
      (match L.getLast? with
       | some last => if last.critique.score = 0 then 0 else last.critique.score
       | none => 0) - b
    totalClaudeCalls := c
    convergenceReason := "claude_limit" }

/-- The `while (claudeCalls < config.maxClaudeCalls)` loop of
`selfRefinePrompt` (lines 277-334), with the two oracle calls of one
round hoisted into `mkRecord`/`nextPrompt`. The fuel argument only bounds
the recursion; `selfRefinePrompt` supplies `maxClaudeCalls` fuel, which is
never exhausted because every round that continues adds two to
`claudeCalls`, and an exhausted fuel yields the same fallback value as a
false loop guard. The stop test compares `claudeCalls` (already
incremented by the critique call, hence `c + 1`) against
`maxClaudeCalls - 1` over `ℤ`, exactly as the JS `>=` on numbers does. -/
def selfRefineLoop (o : LoopOracle) (cfg : ImprovementConfig) (b : ℚ) :
    ℕ → String → ℕ → List RefinementIteration → SelfRefineResult
  | 0, p, c, L => selfRefineFallback b p c L
  | fuel + 1, p, c, L =>
    if c < cfg.maxClaudeCalls then
      if (shouldContinueRefinement L cfg).1 = false ∨
          (c : ℤ) + 1 ≥ (cfg.maxClaudeCalls : ℤ) - 1 then
        stopResult o cfg b p c L
      else
        selfRefineLoop o cfg b fuel (nextPrompt o p L.length) (c + 2)
          (L ++ [mkRecord o b p L])
    else selfRefineFallback b p c L

/-- `selfRefinePrompt` (lines 261-347): run the loop from the original
prompt with zero calls and no recorded iterations. -/
def selfRefinePrompt (o : LoopOracle) (cfg : ImprovementConfig) (b : ℚ)
    (originalPrompt : String) : SelfRefineResult :=
  selfRefineLoop o cfg b cfg.maxClaudeCalls originalPrompt 0 []

/-! ## `getCritique` parsing and sanitisation (`self-refine.ts` lines 103-161) -/

/-- The critique object as parsed from the oracle's JSON, before
sanitisation. `score := none` models a `score` field that is not a number;
the sub-scores pass through `getCritique` untouched, so an arbitrary
rational models any numeric value the oracle may return. -/
structure RawCritique where
  score : Option ℚ
  clarity : ℚ
  effectiveness : ℚ
  completeness : ℚ
  improvements : List String
  concerns : List String
  recommendation : String
  shouldContinue : Bool
deriving DecidableEq, Repr

/-- The fixed fallback critique returned when the response cannot be parsed
(lines 150-159). -/
def fallbackCritique : SelfCritiqueResult :=
  { score := 6
    clarity := 6
    effectiveness := 6
    completeness := 6
    improvements := ["Could not generate detailed critique"]
    concerns := ["Critique parsing failed"]
    recommendation := "Manual review recommended"
    shouldContinue := false }

/-- `getCritique` from the parse result onward (lines 139-160): a `none`
argument models a response that failed JSON extraction/parsing; on success
only the overall `score` is validated (non-number or out-of-range becomes
`5`), every other field passes through unchanged. -/
def getCritique (parsed : Option RawCritique) : SelfCritiqueResult :=
  match parsed with
  | none => fallbackCritique
  | some c =>
    { score :=
        match c.score with
        | some s => if s < 0 ∨ 10 < s then 5 else s
        | none => 5
      clarity := c.clarity
      effectiveness := c.effectiveness
      completeness := c.completeness
      improvements := c.improvements
      concerns := c.concerns
      recommendation := c.recommendation
      shouldContinue := c.shouldContinue }

/-! ## Response cache (`RefineCache`, `callClaude`; `self-refine.ts` lines 44-98) -/

/-- A cache entry: `{ response, timestamp }`. -/
structure CacheEntry where
  response : String
  timestamp : ℤ
deriving DecidableEq, Repr

/-- The cache's backing map, as a function from keys to optional entries. -/
def CacheState : Type := String → Option CacheEntry

/-- `RefineCache.maxAge` = 3600000 ms (1 hour). -/
def RefineCache.maxAge : ℤ := 3600000

/-- `this.cache.delete(key)`. -/
def cacheDelete (σ : CacheState) (key : String) : CacheState :=
  fun k => if k = key then none else σ k

/-- `RefineCache.get` (lines 48-55): return a fresh entry's response, else
delete the key (lazy eviction of expired entries) and return null. `now`
is the explicit `Date.now()` value. -/
def cacheGet (σ : CacheState) (now : ℤ) (key : String) :
    Option String × CacheState :=
  match σ key with
  | some entry =>
    if now - entry.timestamp < RefineCache.maxAge then (some entry.response, σ)
    else (none, cacheDelete σ key)
  | none => (none, cacheDelete σ key)

/-- `RefineCache.set` (lines 57-59). -/
def cacheSet (σ : CacheState) (now : ℤ) (key response : String) : CacheState :=
  fun k => if k = key then some ⟨response, now⟩ else σ k

/-- `RefineCache.generateKey` (lines 61-63): operation kind plus a
100-character prefix of the prompt. -/
def generateKey (prompt : String) (kind : String) : String :=
  kind ++ ":" ++ prompt.take 100

/-- `callClaude` (lines 71-98). `oracleResponse` is the text the external
CLI would produce for this invocation (`none` = transport failure). The
returned triple is (result, new cache state, number of oracle invocations
actually issued by this call: 0 on a cache hit, 1 otherwise). -/
def callClaude (σ : CacheState) (now : ℤ) (cacheKey : Option String)
    (oracleResponse : Option String) : Option String × CacheState × ℕ :=
  match cacheKey with
  | some key =>
    match cacheGet σ now key with
    | (some cached, σ') => (some cached, σ', 0)
    | (none, σ') =>
      match oracleResponse with
      | some result =>
        let trimmed := jsTrim result
        (some trimmed, cacheSet σ' now key trimmed, 1)
      | none => (none, σ', 1)
  | none =>
    match oracleResponse with
    | some result => (some (jsTrim result), σ, 1)
    | none => (none, σ, 1)

/-! ## Progressive enhancement pipeline (`progressive-enhancer`) -/

/-- An enhancement layer as static data: name, description, priority rank,
validation predicate (before, after), and named skip conditions. The
`apply` member issues the oracle call and is modelled by the pipeline's
response stream; every concrete `validate` ignores its context argument,
so the predicate is binary here. -/
structure EnhancementLayer where
  name : String
  description : String
  priority : ℕ
  validate : String → String → Bool
  skipConditions : List String

/-- One entry of the pipeline's per-layer trace (`EnhancementResult`);
the post-hoc `improvements` summary and `timeMs` are omitted (purely
descriptive, no property mentions them). -/
structure EnhancementResult where
  layerName : String
  originalPrompt : String
  enhancedPrompt : String
  validationPassed : Bool
  skipped : Bool
  skipReason : Option String
deriving DecidableEq, Repr

/-- Layer 1 validate: structure markers or more lines, and length growth
strictly between 1.1x and 2.5x (`progressive-enhancer` lines 153-164). -/
def structureValidate (before after : String) : Bool :=
  (decide (lineCount before < lineCount after) ||
      (containsSub after "#" || containsSub after "##") ||
      (containsSub after "- " || containsSub after "* ") ||
      hasNumberedMarker after.data) &&
    decide ((before.length : ℚ) * 11 / 10 < (after.length : ℚ)) &&
    decide ((after.length : ℚ) < (before.length : ℚ) * 5 / 2)

/-- Words whose fresh appearance counts as added context (lines 213-215). -/
def contextWords : List String :=
  ["context", "background", "consider", "given", "assume", "requirements"]

/-- Layer 2 validate (lines 211-218). -/
def contextValidate (before after : String) : Bool :=
  let grow : ℚ := (after.length : ℚ) / (before.length : ℚ)
  (decide ((6 : ℚ) / 5 ≤ grow) && decide (grow ≤ 3)) &&
    contextWords.any (fun w =>
      containsSub (lowerStr after) w && !containsSub (lowerStr before) w)

/-- Layer 3 validate (lines 265-275). -/
def examplesValidate (before after : String) : Bool :=
  let grow : ℚ := (after.length : ℚ) / (before.length : ℚ)
  (containsSub (lowerStr after) "example" || containsSub after "e.g." ||
      containsSub after "for instance" || containsSub after "```" ||
      containsSub after "such as") &&
    decide ((23 : ℚ) / 20 ≤ grow) && decide (grow ≤ 5 / 2)

/-- Constraint-signal words (line 323). -/
def constraintWords : List String :=
  ["must", "should", "required", "constraint", "limit", "not", "avoid",
    "ensure", "requirement"]

/-- Layer 4 validate (lines 322-331): JS `split(word).length` growth is
occurrence-count growth. -/
def constraintsValidate (before after : String) : Bool :=
  let grow : ℚ := (after.length : ℚ) / (before.length : ℚ)
  constraintWords.any (fun w =>
      countOcc (lowerStr before) w < countOcc (lowerStr after) w) &&
    decide ((11 : ℚ) / 10 ≤ grow) && decide (grow ≤ 2)

/-- Success-criteria vocabulary (line 379). -/
def criteriaWords : List String :=
  ["success", "criteria", "measure", "evaluate", "assess", "quality",
    "validate", "check"]

/-- Layer 5 validate (lines 378-388). -/
def successValidate (before after : String) : Bool :=
  let grow : ℚ := (after.length : ℚ) / (before.length : ℚ)
  criteriaWords.any (fun w =>
      containsSub (lowerStr after) w && !containsSub (lowerStr before) w) &&
    decide ((21 : ℚ) / 20 ≤ grow) && decide (grow ≤ 3 / 2)

/-- Layer 1: Structure & Clarity. -/
def structureLayer : EnhancementLayer :=
  { name := "Structure & Clarity"
    description := "Add clear structure, organization, and logical flow"
    priority := 1
    validate := structureValidate
    skipConditions := ["already_structured", "very_short_prompt"] }

/-- Layer 2: Context & Background. -/
def contextLayer : EnhancementLayer :=
  { name := "Context & Background"
    description := "Add relevant context, background information, and domain-specific details"
    priority := 2
    validate := contextValidate
    skipConditions := ["context_rich", "very_long_prompt"] }

/-- Layer 3: Examples & Patterns. -/
def examplesLayer : EnhancementLayer :=
  { name := "Examples & Patterns"
    description := "Add relevant examples, templates, and pattern demonstrations"
    priority := 3
    validate := examplesValidate
    skipConditions := ["example_rich", "simple_task"] }

/-- Layer 4: Constraints & Requirements. -/
def constraintsLayer : EnhancementLayer :=
  { name := "Constraints & Requirements"
    description := "Add specific constraints, requirements, and edge case handling"
    priority := 4
    validate := constraintsValidate
    skipConditions := ["constraint_heavy", "creative_task"] }

/-- Layer 5: Success Criteria & Validation. -/
def successCriteriaLayer : EnhancementLayer :=
  { name := "Success Criteria & Validation"
    description := "Add clear success criteria and validation methods"
    priority := 5
    validate := successValidate
    skipConditions := ["criteria_defined", "simple_output"] }

/-- The fixed five-layer sequence of `ProgressiveEnhancer` (lines 395-401). -/
def pipelineLayers : List EnhancementLayer :=
  [structureLayer, contextLayer, examplesLayer, constraintsLayer, successCriteriaLayer]

/-- `shouldSkipLayer` (lines 545-575): first matching named condition wins;
conditions with no handler (`context_rich`, `simple_task`, `creative_task`,
`criteria_defined`, `simple_output`) never fire, as in the source. -/
def shouldSkipLayer (layer : EnhancementLayer) (prompt : String) : Option String :=
  if layer.skipConditions.contains "very_short_prompt" && decide (prompt.length < 50) then
    some "prompt_too_short"
  else if layer.skipConditions.contains "very_long_prompt" && decide (2000 < prompt.length) then
    some "prompt_too_long"
  else if layer.skipConditions.contains "already_structured" &&
      (containsSub prompt "#" || containsSub prompt "- " || containsSub prompt "1.") then
    some "already_has_structure"
  else if layer.skipConditions.contains "example_rich" &&
      (containsSub (lowerStr prompt) "example" || containsSub prompt "e.g.") then
    some "already_has_examples"
  else if layer.skipConditions.contains "constraint_heavy" &&
      (containsSub prompt "must" || containsSub prompt "required") then
    some "already_has_constraints"
  else none

/-- A skipped-layer trace record (lines 437-447, 460-469, 512-521):
`enhancedPrompt` equals the current prompt and validation is false. -/
def skippedRecord (layer : EnhancementLayer) (prompt reason : String) : EnhancementResult :=
  { layerName := layer.name
    originalPrompt := prompt
    enhancedPrompt := prompt
    validationPassed := false
    skipped := true
    skipReason := some reason }

/-- The pipeline's running state after processing a list of layers. -/
structure EnhanceAcc where
  currentPrompt : String
  claudeCalls : ℕ
  previousLayers : List String
  layerResults : List EnhancementResult
deriving DecidableEq, Repr

/-- The `for (const layer of this.layers)` body of
`ProgressiveEnhancer.enhance` (lines 434-524). `applies a` is the oracle's
response to the pipeline's `a`-th attempted layer-apply call (`none` models
a thrown call, the `catch` branch, which does not increment `claudeCalls`).
The budget guard compares over `ℤ` exactly as the JS
`claudeCalls >= config.maxClaudeCalls - 1` does. -/
def enhanceGo (applies : ℕ → Option String) (maxClaudeCalls : ℕ) :
    List EnhancementLayer → String → ℕ → ℕ → List String → EnhanceAcc
  | [], p, c, _a, prev =>
    { currentPrompt := p, claudeCalls := c, previousLayers := prev, layerResults := [] }
  | layer :: rest, p, c, a, prev =>
    if (c : ℤ) ≥ (maxClaudeCalls : ℤ) - 1 then
      let acc := enhanceGo applies maxClaudeCalls rest p c a prev
      { acc with layerResults := skippedRecord layer p "claude_call_limit" :: acc.layerResults }
    else
      match shouldSkipLayer layer p with
      | some reason =>
        let acc := enhanceGo applies maxClaudeCalls rest p c a prev
        { acc with layerResults := skippedRecord layer p reason :: acc.layerResults }
      | none =>
        match applies a with
        | some enhanced =>
          let passed := layer.validate p enhanced
          let rec0 : EnhancementResult :=
            { layerName := layer.name
              originalPrompt := p
              enhancedPrompt := enhanced
              validationPassed := passed
              skipped := false
              skipReason := none }
          if passed then
            let acc := enhanceGo applies maxClaudeCalls rest enhanced (c + 1) (a + 1)
              (prev ++ [layer.name])
            { acc with layerResults := rec0 :: acc.layerResults }
          else
            let acc := enhanceGo applies maxClaudeCalls rest p (c + 1) (a + 1) prev
            { acc with layerResults := rec0 :: acc.layerResults }
        | none =>
          let acc := enhanceGo applies maxClaudeCalls rest p c (a + 1) prev
          { acc with layerResults := skippedRecord layer p "layer_failed" :: acc.layerResults }

/-- `calculateOverallImprovement` (lines 612-618). -/
def calculateOverallImprovement (original finalText : String) : ℚ :=
  let lengthGrowth : ℚ := (finalText.length : ℚ) / (original.length : ℚ)
  let structureBonus : ℚ :=
    if containsSub finalText "#" || containsSub finalText "- " then 1/2 else 0
  let exampleBonus : ℚ :=
    if containsSub finalText "example" || containsSub finalText "```" then 3/10 else 0
  min (lengthGrowth + structureBonus + exampleBonus) 3

/-- `ProgressiveEnhancementResult` (lines 42-51), without the wall-clock
`totalTimeMs`. -/
structure ProgressiveEnhancementResult where
  finalPrompt : String
  layerResults : List EnhancementResult
  totalLayers : ℕ
  appliedLayers : ℕ
  skippedLayers : ℕ
  overallImprovement : ℚ
  claudeCalls : ℕ

/-- `ProgressiveEnhancer.enhance` (lines 406-540): fold the five layers in
order from the initial context (no previous layers, zero calls). -/
def enhance (applies : ℕ → Option String) (config : ImprovementConfig)
    (prompt : String) : ProgressiveEnhancementResult :=
  let acc := enhanceGo applies config.maxClaudeCalls pipelineLayers prompt 0 0 []
  { finalPrompt := acc.currentPrompt
    layerResults := acc.layerResults
    totalLayers := pipelineLayers.length
    appliedLayers := (acc.layerResults.filter fun r => !r.skipped && r.validationPassed).length
    skippedLayers := (acc.layerResults.filter fun r => r.skipped).length
    overallImprovement := calculateOverallImprovement prompt acc.currentPrompt
    claudeCalls := acc.claudeCalls }

/-! ## Lemmas about the deciding step -/

/-- With no recorded iterations the decision is to continue. -/
theorem sccr_nil (cfg : ImprovementConfig) :
    shouldContinueRefinement [] cfg = (true, "no_iterations_yet") := rfl

/-- With fewer than two recorded iterations the diminishing-returns test is
off. -/
theorem dim_short {L : List RefinementIteration} (latest : RefinementIteration)
    (h : L.length < 2) : diminishingReturns L latest = false := by
  unfold diminishingReturns
  rw [if_neg (by omega)]

/-- A gain of at least 0.3 over the second-to-last iteration defeats the
diminishing-returns test. -/
theorem dim_of_ge (L : List RefinementIteration) (latest prev : RefinementIteration)
    (h2 : 2 ≤ L.length) (hp : L.get? (L.length - 2) = some prev)
    (hg : 3/10 ≤ latest.critique.score - prev.critique.score) :
    diminishingReturns L latest = false := by
  unfold diminishingReturns
  rw [if_pos h2, hp]
  simp [not_lt.mpr hg]

/-- A gain below 0.3 over the second-to-last iteration fires the
diminishing-returns test. -/
theorem dim_of_lt (L : List RefinementIteration) (latest prev : RefinementIteration)
    (h2 : 2 ≤ L.length) (hp : L.get? (L.length - 2) = some prev)
    (hg : latest.critique.score - prev.critique.score < 3/10) :
    diminishingReturns L latest = true := by
  unfold diminishingReturns
  rw [if_pos h2, hp]
  simp [hg]

/-- Quality reached by the last recorded iteration stops with
`quality_achieved`, whatever the other conditions. -/
theorem sccr_quality {L : List RefinementIteration} {latest : RefinementIteration}
    (cfg : ImprovementConfig) (h : L.getLast? = some latest)
    (hq : cfg.targetQuality ≤ latest.critique.score) :
    shouldContinueRefinement L cfg = (false, "quality_achieved") := by
  unfold shouldContinueRefinement
  rw [h]
  simp [hq]

/-- Iteration cap reached (and quality not reached) stops with
`max_iterations`. -/
theorem sccr_maxIter {L : List RefinementIteration} {latest : RefinementIteration}
    (cfg : ImprovementConfig) (h : L.getLast? = some latest)
    (hq : latest.critique.score < cfg.targetQuality)
    (hm : cfg.maxIterations ≤ L.length) :
    shouldContinueRefinement L cfg = (false, "max_iterations") := by
  unfold shouldContinueRefinement
  rw [h]
  simp [not_le.mpr hq, hm]

/-- Diminishing returns (with quality and iteration cap not hit) stops with
`diminishing_returns`. -/
theorem sccr_dim {L : List RefinementIteration} {latest : RefinementIteration}
    (cfg : ImprovementConfig) (h : L.getLast? = some latest)
    (hq : latest.critique.score < cfg.targetQuality)
    (hm : L.length < cfg.maxIterations)
    (hd : diminishingReturns L latest = true) :
    shouldContinueRefinement L cfg = (false, "diminishing_returns") := by
  unfold shouldContinueRefinement
  rw [h]
  simp [not_le.mpr hq, not_le.mpr hm, hd]

/-- A negative continuation advice (with all earlier conditions clear)
stops with `claude_recommendation`. -/
theorem sccr_advice {L : List RefinementIteration} {latest : RefinementIteration}
    (cfg : ImprovementConfig) (h : L.getLast? = some latest)
    (hq : latest.critique.score < cfg.targetQuality)
    (hm : L.length < cfg.maxIterations)
    (hd : diminishingReturns L latest = false)
    (ha : latest.critique.shouldContinue = false) :
    shouldContinueRefinement L cfg = (false, "claude_recommendation") := by
  unfold shouldContinueRefinement
  rw [h]
  simp [not_le.mpr hq, not_le.mpr hm, hd, ha]

/-- All four stop conditions clear: continue. -/
theorem sccr_continue {L : List RefinementIteration} {latest : RefinementIteration}
    (cfg : ImprovementConfig) (h : L.getLast? = some latest)
    (hq : latest.critique.score < cfg.targetQuality)
    (hm : L.length < cfg.maxIterations)
    (hd : diminishingReturns L latest = false)
    (ha : latest.critique.shouldContinue = true) :
    shouldContinueRefinement L cfg = (true, "continue_improving") := by
  unfold shouldContinueRefinement
  rw [h]
  simp [not_le.mpr hq, not_le.mpr hm, hd, ha]

/-! ## Step lemmas for the loop -/

/-- Unrolling: loop guard false. -/
theorem loop_guard_false {cfg : ImprovementConfig} {c : ℕ}
    (o : LoopOracle) (b : ℚ) (fuel : ℕ) (p : String) (L : List RefinementIteration)
    (h1 : ¬ c < cfg.maxClaudeCalls) :
    selfRefineLoop o cfg b (fuel + 1) p c L = selfRefineFallback b p c L := by
  simp only [selfRefineLoop]
  rw [if_neg h1]

/-- Unrolling: a round whose stop check fires returns `stopResult`. -/
theorem loop_stop {cfg : ImprovementConfig} {c : ℕ}
    (o : LoopOracle) (b : ℚ) (fuel : ℕ) (p : String) (L : List RefinementIteration)
    (h1 : c < cfg.maxClaudeCalls)
    (h2 : (shouldContinueRefinement L cfg).1 = false ∨
      (c : ℤ) + 1 ≥ (cfg.maxClaudeCalls : ℤ) - 1) :
    selfRefineLoop o cfg b (fuel + 1) p c L = stopResult o cfg b p c L := by
  simp only [selfRefineLoop]
  rw [if_pos h1, if_pos h2]

/-- Unrolling: a round that continues recurses with two more calls, the
improved (or, on failure, unchanged) prompt, and one more record. -/
theorem loop_continue {cfg : ImprovementConfig} {c : ℕ}
    (o : LoopOracle) (b : ℚ) (fuel : ℕ) (p : String) (L : List RefinementIteration)
    (h1 : c < cfg.maxClaudeCalls)
    (h2 : (shouldContinueRefinement L cfg).1 = true)
    (h3 : (c : ℤ) + 1 < (cfg.maxClaudeCalls : ℤ) - 1) :
    selfRefineLoop o cfg b (fuel + 1) p c L =
      selfRefineLoop o cfg b fuel (nextPrompt o p L.length) (c + 2)
        (L ++ [mkRecord o b p L]) := by
  have hcond : ¬ ((shouldContinueRefinement L cfg).1 = false ∨
      (c : ℤ) + 1 ≥ (cfg.maxClaudeCalls : ℤ) - 1) := by
    push_neg
    exact ⟨by simp [h2], h3⟩
  simp only [selfRefineLoop]
  rw [if_pos h1, if_neg hcond]

/-- The call counter never decreases along the loop. -/
theorem loop_calls_ge (o : LoopOracle) (cfg : ImprovementConfig) (b : ℚ) :
    ∀ fuel p c L, c ≤ (selfRefineLoop o cfg b fuel p c L).totalClaudeCalls := by
  intro fuel
  induction fuel with
  | zero => intro p c L; simp [selfRefineLoop, selfRefineFallback]
  | succ n ih =>
    intro p c L
    by_cases h1 : c < cfg.maxClaudeCalls
    · by_cases h2 : (shouldContinueRefinement L cfg).1 = false ∨
          (c : ℤ) + 1 ≥ (cfg.maxClaudeCalls : ℤ) - 1
      · rw [loop_stop o b n p L h1 h2]
        simp [stopResult]
      · push_neg at h2
        obtain ⟨h2a, h2b⟩ := h2
        rw [loop_continue o b n p L h1 (by simpa using h2a) h2b]
        calc c ≤ c + 2 := by omega
          _ ≤ _ := ih _ _ _
    · rw [loop_guard_false o b n p L h1]
      simp [selfRefineFallback]

/-- A round whose guard holds performs at least its critique call. -/
theorem loop_calls_ge_one {cfg : ImprovementConfig} {c : ℕ}
    (o : LoopOracle) (b : ℚ) (fuel : ℕ) (p : String) (L : List RefinementIteration)
    (h1 : c < cfg.maxClaudeCalls) :
    c + 1 ≤ (selfRefineLoop o cfg b (fuel + 1) p c L).totalClaudeCalls := by
  by_cases h2 : (shouldContinueRefinement L cfg).1 = false ∨
      (c : ℤ) + 1 ≥ (cfg.maxClaudeCalls : ℤ) - 1
  · rw [loop_stop o b fuel p L h1 h2]
    simp [stopResult]
  · push_neg at h2
    obtain ⟨h2a, h2b⟩ := h2
    rw [loop_continue o b fuel p L h1 (by simpa using h2a) h2b]
    calc c + 1 ≤ c + 2 := by omega
      _ ≤ _ := loop_calls_ge o cfg b fuel _ _ _

/-- The call counter stays within the budget. -/
theorem loop_calls_le (o : LoopOracle) (cfg : ImprovementConfig) (b : ℚ) :
    ∀ fuel p c L, c ≤ cfg.maxClaudeCalls →
      (selfRefineLoop o cfg b fuel p c L).totalClaudeCalls ≤ cfg.maxClaudeCalls := by
  intro fuel
  induction fuel with
  | zero => intro p c L hc; simpa [selfRefineLoop, selfRefineFallback] using hc
  | succ n ih =>
    intro p c L hc
    by_cases h1 : c < cfg.maxClaudeCalls
    · by_cases h2 : (shouldContinueRefinement L cfg).1 = false ∨
          (c : ℤ) + 1 ≥ (cfg.maxClaudeCalls : ℤ) - 1
      · rw [loop_stop o b n p L h1 h2]
        simp only [stopResult]
        omega
      · push_neg at h2
        obtain ⟨h2a, h2b⟩ := h2
        rw [loop_continue o b n p L h1 (by simpa using h2a) h2b]
        exact ih _ _ _ (by omega)
    · rw [loop_guard_false o b n p L h1]
      simpa [selfRefineFallback] using hc

/-- The loop only appends to the iteration trace. -/
theorem loop_iterations_extend (o : LoopOracle) (cfg : ImprovementConfig) (b : ℚ) :
    ∀ fuel p c L, ∃ M, (selfRefineLoop o cfg b fuel p c L).iterations = L ++ M := by
  intro fuel
  induction fuel with
  | zero => intro p c L; exact ⟨[], by simp [selfRefineLoop, selfRefineFallback]⟩
  | succ n ih =>
    intro p c L
    by_cases h1 : c < cfg.maxClaudeCalls
    · by_cases h2 : (shouldContinueRefinement L cfg).1 = false ∨
          (c : ℤ) + 1 ≥ (cfg.maxClaudeCalls : ℤ) - 1
      · rw [loop_stop o b n p L h1 h2]
        exact ⟨[mkRecord o b p L], rfl⟩
      · push_neg at h2
        obtain ⟨h2a, h2b⟩ := h2
        rw [loop_continue o b n p L h1 (by simpa using h2a) h2b]
        obtain ⟨M, hM⟩ := ih (nextPrompt o p L.length) (c + 2) (L ++ [mkRecord o b p L])
        exact ⟨[mkRecord o b p L] ++ M, by rw [hM, List.append_assoc]⟩
    · rw [loop_guard_false o b n p L h1]
      exact ⟨[], by simp [selfRefineFallback]⟩

/-! ## Lemmas about the pipeline fold -/

/-- The pipeline's call counter stays within the budget. -/
theorem enhanceGo_calls_le (applies : ℕ → Option String) (maxC : ℕ) :
    ∀ layers p c a prev, c ≤ maxC →
      (enhanceGo applies maxC layers p c a prev).claudeCalls ≤ maxC := by
  intro layers
  induction layers with
  | nil => intro p c a prev hc; simpa [enhanceGo] using hc
  | cons layer rest ih =>
    intro p c a prev hc
    simp only [enhanceGo]
    by_cases h1 : (c : ℤ) ≥ (maxC : ℤ) - 1
    · rw [if_pos h1]
      exact ih _ _ _ _ hc
    · rw [if_neg h1]
      cases hskip : shouldSkipLayer layer p with
      | some reason => exact ih _ _ _ _ hc
      | none =>
        cases happ : applies a with
        | none => exact ih _ _ _ _ hc
        | some enhanced =>
          by_cases hv : layer.validate p enhanced = true
          · simp only [hv, if_true]
            exact ih _ _ _ _ (by omega)
          · simp only [hv, if_false, Bool.false_eq_true]
            exact ih _ _ _ _ (by omega)

/-- The pipeline's trace lists the layers by name, in order, one record
per layer. -/
theorem enhanceGo_names (applies : ℕ → Option String) (maxC : ℕ) :
    ∀ layers p c a prev,
      (enhanceGo applies maxC layers p c a prev).layerResults.map
          (fun r => r.layerName) =
        layers.map (fun l => l.name) := by
  intro layers
  induction layers with
  | nil => intro p c a prev; simp [enhanceGo]
  | cons layer rest ih =>
    intro p c a prev
    simp only [enhanceGo]
    by_cases h1 : (c : ℤ) ≥ (maxC : ℤ) - 1
    · rw [if_pos h1]
      simp [skippedRecord, ih]
    · rw [if_neg h1]
      cases hskip : shouldSkipLayer layer p with
      | some reason => simp [skippedRecord, ih]
      | none =>
        cases happ : applies a with
        | none => simp [skippedRecord, ih]
        | some enhanced =>
          by_cases hv : layer.validate p enhanced = true
          · simp [hv, ih]
          · simp [hv, ih]

/-- Trace invariant of the loop: if the records so far hold exactly the
critiques of the first `L.length` critique calls, the final trace holds
exactly the critiques of its first `length` critique calls, and
`totalIterations` equals the trace length. -/
theorem loop_trace (o : LoopOracle) (cfg : ImprovementConfig) (b : ℚ) :
    ∀ fuel p c L,
      L.map (fun r => r.critique) = (List.range L.length).map o.critiques →
      (selfRefineLoop o cfg b fuel p c L).iterations.map (fun r => r.critique) =
        (List.range (selfRefineLoop o cfg b fuel p c L).iterations.length).map
          o.critiques ∧
      (selfRefineLoop o cfg b fuel p c L).totalIterations =
        (selfRefineLoop o cfg b fuel p c L).iterations.length := by
  intro fuel
  induction fuel with
  | zero =>
    intro p c L hmap
    constructor
    · simpa [selfRefineLoop, selfRefineFallback] using hmap
    · simp [selfRefineLoop, selfRefineFallback]
  | succ n ih =>
    intro p c L hmap
    have hstep : (L ++ [mkRecord o b p L]).map (fun r => r.critique) =
        (List.range (L ++ [mkRecord o b p L]).length).map o.critiques := by
      simp only [List.length_append, List.length_cons, List.length_nil]
      rw [List.map_append, hmap, List.range_succ, List.map_append]
      simp [mkRecord]
    by_cases h1 : c < cfg.maxClaudeCalls
    · by_cases h2 : (shouldContinueRefinement L cfg).1 = false ∨
          (c : ℤ) + 1 ≥ (cfg.maxClaudeCalls : ℤ) - 1
      · rw [loop_stop o b n p L h1 h2]
        exact ⟨by simpa [stopResult] using hstep, by simp [stopResult]⟩
      · push_neg at h2
        obtain ⟨h2a, h2b⟩ := h2
        rw [loop_continue o b n p L h1 (by simpa using h2a) h2b]
        exact ih _ _ _ hstep
    · rw [loop_guard_false o b n p L h1]
      exact ⟨by simpa [selfRefineFallback] using hmap, by simp [selfRefineFallback]⟩

/-- C1. For every budget configuration, the call counter returned by a run
of the convergence loop (`totalClaudeCalls`) and by a run of the layered
pipeline (`claudeCalls`) is at most `maxClaudeCalls`: the loop's stop
check fires before a round that could not afford its critique+improve
pair, and the pipeline skips a layer rather than drop below one remaining
call. (The counters count exactly the `claudeCalls++` sites of the source:
every critique and improve call of the loop and every layer-apply call
that returns; a pipeline apply call that throws is not counted by the
source either.) -/
theorem c1_budget_bound :
    (∀ (o : LoopOracle) (cfg : ImprovementConfig) (b : ℚ) (p : String),
       (selfRefinePrompt o cfg b p).totalClaudeCalls ≤ cfg.maxClaudeCalls) ∧
    (∀ (applies : ℕ → Option String) (cfg : ImprovementConfig) (p : String),
       (enhance applies cfg p).claudeCalls ≤ cfg.maxClaudeCalls) := by
  constructor
  · intro o cfg b p
    exact loop_calls_le o cfg b _ _ _ _ (Nat.zero_le _)
  · intro applies cfg p
    have h := enhanceGo_calls_le applies cfg.maxClaudeCalls pipelineLayers p 0 0 []
      (Nat.zero_le _)
    simpa [enhance] using h

/-- C9. The returned trace is complete: one pipeline record per layer of
the fixed five-layer sequence, in order and by name, whether applied,
validation-failed or skipped; and the loop's trace carries exactly one
record per critique call performed (the records' critiques are precisely
the responses to critique calls `0 .. length-1`, and `totalIterations` is
the trace length). -/
theorem c9_trace_complete :
    (∀ (applies : ℕ → Option String) (cfg : ImprovementConfig) (p : String),
       (enhance applies cfg p).layerResults.map (fun r => r.layerName) =
         pipelineLayers.map (fun l => l.name) ∧
       (enhance applies cfg p).layerResults.length = (enhance applies cfg p).totalLayers) ∧
    (∀ (o : LoopOracle) (cfg : ImprovementConfig) (b : ℚ) (p : String),
       (selfRefinePrompt o cfg b p).iterations.map (fun r => r.critique) =
         (List.range (selfRefinePrompt o cfg b p).iterations.length).map o.critiques ∧
       (selfRefinePrompt o cfg b p).totalIterations =
         (selfRefinePrompt o cfg b p).iterations.length) := by
  constructor
  · intro applies cfg p
    have h := enhanceGo_names applies cfg.maxClaudeCalls pipelineLayers p 0 0 []
    constructor
    · simpa [enhance] using h
    · have hlen := congrArg List.length h
      simpa [enhance] using hlen
  · intro o cfg b p
    exact loop_trace o cfg b cfg.maxClaudeCalls p 0 [] (by simp)

/-! ## C2: order of stop reasons -/

/-- A critique with a given overall score and continuation advice; the
fields the deciding step never reads are fixed. -/
def critOf (s : ℚ) (adv : Bool) : SelfCritiqueResult :=
  { score := s
    clarity := 0
    effectiveness := 0
    completeness := 0
    improvements := []
    concerns := []
    recommendation := ""
    shouldContinue := adv }

/-- A recorded iteration with a given critique score and advice. -/
def recOf (s : ℚ) (adv : Bool) : RefinementIteration :=
  { iteration := 1
    prompt := "p"
    critique := critOf s adv
    improvementsMade := []
    qualityGain := 0 }

/-- An oracle whose every critique scores 8 with positive advice. -/
def oC2 : LoopOracle :=
  { critiques := fun _ => critOf 8 true
    improves := fun _ => some "q" }

/-- A budget of 4 calls with target 7. -/
def cfgC2 : ImprovementConfig :=
  { targetQuality := 7, maxIterations := 5, maxClaudeCalls := 4 }

/-- C2 counterexample: running the loop with every critique scoring 8
(target 7, budget 4), the deciding step at the final iteration computes
`quality_achieved` (the decision over the single earlier record) and the
budget condition holds as well (3 calls made, `3 ≥ 4 - 1`), yet the
reported `convergenceReason` is `claude_limit`, not `quality_achieved`:
the budget reason overrides the ordered reasons instead of being checked
last. -/
theorem c2_counterexample :
    shouldContinueRefinement ((selfRefinePrompt oC2 cfgC2 0 "p").iterations.take 1) cfgC2 =
      (false, "quality_achieved") ∧
    (selfRefinePrompt oC2 cfgC2 0 "p").totalClaudeCalls = 3 ∧
    cfgC2.maxClaudeCalls = 4 ∧
    (selfRefinePrompt oC2 cfgC2 0 "p").convergenceReason = "claude_limit" := by
  decide

/-- C2 (amended). Inside `shouldContinueRefinement` the reasons
`quality_achieved`, `max_iterations`, `diminishing_returns`,
`claude_recommendation` are evaluated in that fixed order over the
iterations recorded before the current critique, first match winning; but
the budget reason `claude_limit` is applied after that decision and takes
precedence over all of them: whenever the post-critique counter satisfies
`claudeCalls + 1 ≥ maxClaudeCalls - 1` at the stop check, the terminal
`convergenceReason` is `claude_limit`, even when `quality_achieved` holds
simultaneously. -/
theorem c2_amended :
    (∀ (L : List RefinementIteration) (cfg : ImprovementConfig)
        (latest : RefinementIteration),
        L.getLast? = some latest →
        cfg.targetQuality ≤ latest.critique.score →
        shouldContinueRefinement L cfg = (false, "quality_achieved")) ∧
    (∀ (L : List RefinementIteration) (cfg : ImprovementConfig)
        (latest : RefinementIteration),
        L.getLast? = some latest →
        latest.critique.score < cfg.targetQuality →
        cfg.maxIterations ≤ L.length →
        shouldContinueRefinement L cfg = (false, "max_iterations")) ∧
    (∀ (L : List RefinementIteration) (cfg : ImprovementConfig)
        (latest : RefinementIteration),
        L.getLast? = some latest →
        latest.critique.score < cfg.targetQuality →
        L.length < cfg.maxIterations →
        diminishingReturns L latest = true →
        shouldContinueRefinement L cfg = (false, "diminishing_returns")) ∧
    (∀ (L : List RefinementIteration) (cfg : ImprovementConfig)
        (latest : RefinementIteration),
        L.getLast? = some latest →
        latest.critique.score < cfg.targetQuality →
        L.length < cfg.maxIterations →
        diminishingReturns L latest = false →
        latest.critique.shouldContinue = false →
        shouldContinueRefinement L cfg = (false, "claude_recommendation")) ∧
    (∀ (o : LoopOracle) (cfg : ImprovementConfig) (b : ℚ) (fuel : ℕ) (p : String)
        (c : ℕ) (L : List RefinementIteration),
        c < cfg.maxClaudeCalls →
        (c : ℤ) + 1 ≥ (cfg.maxClaudeCalls : ℤ) - 1 →
        (selfRefineLoop o cfg b (fuel + 1) p c L).convergenceReason = "claude_limit") := by
  refine ⟨?_, ?_, ?_, ?_, ?_⟩
  · intro L cfg latest h hq
    exact sccr_quality cfg h hq
  · intro L cfg latest h hq hm
    exact sccr_maxIter cfg h hq hm
  · intro L cfg latest h hq hm hd
    exact sccr_dim cfg h hq hm hd
  · intro L cfg latest h hq hm hd ha
    exact sccr_advice cfg h hq hm hd ha
  · intro o cfg b fuel p c L h1 h2
    rw [loop_stop o b fuel p L h1 (Or.inr h2)]
    simp only [stopResult]
    rw [if_pos h2]

/-- Witness for the amended C2 at concrete inputs: each branch of the order
and the `claude_limit` override exercised once. -/
theorem c2_amended_witness :
    shouldContinueRefinement [recOf 8 true] cfgC2 = (false, "quality_achieved") ∧
    shouldContinueRefinement [recOf 5 true]
      { targetQuality := 7, maxIterations := 1, maxClaudeCalls := 4 } =
      (false, "max_iterations") ∧
    shouldContinueRefinement [recOf 5 true, recOf 5 true] cfgC2 =
      (false, "diminishing_returns") ∧
    shouldContinueRefinement [recOf 5 true, recOf 6 false] cfgC2 =
      (false, "claude_recommendation") ∧
    (selfRefineLoop oC2 cfgC2 0 1 "p" 2 []).convergenceReason = "claude_limit" := by
  refine ⟨?_, ?_, ?_, ?_, ?_⟩
  · exact c2_amended.1 [recOf 8 true] cfgC2 (recOf 8 true) rfl
      (by norm_num [recOf, critOf, cfgC2])
  · exact c2_amended.2.1 [recOf 5 true] _ (recOf 5 true) rfl
      (by norm_num [recOf, critOf]) (by decide)
  · exact c2_amended.2.2.1 [recOf 5 true, recOf 5 true] cfgC2 (recOf 5 true) rfl
      (by norm_num [recOf, critOf, cfgC2]) (by decide)
      (dim_of_lt [recOf 5 true, recOf 5 true] (recOf 5 true) (recOf 5 true)
        (by decide) (by decide) (by norm_num [recOf, critOf]))
  · exact c2_amended.2.2.2.1 [recOf 5 true, recOf 6 false] cfgC2 (recOf 6 false) rfl
      (by norm_num [recOf, critOf, cfgC2]) (by decide)
      (dim_of_ge [recOf 5 true, recOf 6 false] (recOf 6 false) (recOf 5 true)
        (by decide) (by decide) (by norm_num [recOf, critOf]))
      (by decide)
  · exact c2_amended.2.2.2.2 oC2 cfgC2 0 0 "p" 2 [] (by decide) (by decide)

/-! ## C3: quality-achieved stopping iteration -/

/-- An oracle with strictly increasing scores 8, 9 on the calls the run
consumes, first reaching the target 8 at iteration 1. -/
def oC3 : LoopOracle :=
  { critiques := fun n => if n = 0 then critOf 8 true else critOf 9 true
    improves := fun _ => some "q" }

/-- Target 8 with ample iteration and call budget. -/
def cfgC3 : ImprovementConfig :=
  { targetQuality := 8, maxIterations := 10, maxClaudeCalls := 20 }

/-- C3 counterexample: with scores 8 then 9 (strictly increasing, first
reaching the target 8 at iteration k = 1) and ample budget, the loop does
not stop at iteration 1: the deciding step reads only the previously
recorded iterations, so the run performs a second critique and stops at
iteration 2 — later than k — with reason `quality_achieved`. -/
theorem c3_counterexample :
    (oC3.critiques 0).score = 8 ∧
    (oC3.critiques 1).score = 9 ∧
    cfgC3.targetQuality = 8 ∧
    (selfRefinePrompt oC3 cfgC3 0 "p").totalIterations = 2 ∧
    (selfRefinePrompt oC3 cfgC3 0 "p").convergenceReason = "quality_achieved" := by
  decide

/-- Run lemma for the amended C3: from a state that has faithfully recorded
`j ≤ k` iterations (counter `2 * j`), a score stream that stays below the
target up to call `k - 2`, reaches it at call `k - 1`, gains at least 0.3
per step where the lagged diminishing-returns test looks, and advises
continuation, drives the loop to stop at iteration `k + 1` with
`quality_achieved`. -/
theorem c3_run (o : LoopOracle) (cfg : ImprovementConfig) (b : ℚ) (k : ℕ)
    (hk : 1 ≤ k)
    (H1 : ∀ i, i + 2 ≤ k → (o.critiques i).score < cfg.targetQuality)
    (H2 : cfg.targetQuality ≤ (o.critiques (k - 1)).score)
    (H3 : ∀ i, i + 3 ≤ k → 3/10 ≤ (o.critiques (i + 1)).score - (o.critiques i).score)
    (H4 : ∀ i, i + 2 ≤ k → (o.critiques i).shouldContinue = true)
    (H5 : k ≤ cfg.maxIterations)
    (H6 : 2 * k + 3 ≤ cfg.maxClaudeCalls) :
    ∀ n j, j + n = k → ∀ fuel p L, k - j < fuel → L.length = j →
      L.map (fun r => r.critique) = (List.range j).map o.critiques →
      (selfRefineLoop o cfg b fuel p (2 * j) L).totalIterations = k + 1 ∧
      (selfRefineLoop o cfg b fuel p (2 * j) L).convergenceReason =
        "quality_achieved" := by
  intro n
  induction n with
  | zero =>
    intro j hj fuel p L hfuel hlen hmap
    obtain rfl : j = k := by omega
    obtain ⟨fuel', rfl⟩ : ∃ f, fuel = f + 1 := ⟨fuel - 1, by omega⟩
    obtain ⟨k', rfl⟩ : ∃ t, j = t + 1 := ⟨j - 1, by omega⟩
    have h1 : (L.map (fun r => r.critique)).getLast? = some (o.critiques k') := by
      rw [hmap, List.range_succ, List.map_append]
      exact List.getLast?_concat _
    rw [List.getLast?_map] at h1
    obtain ⟨latest, hL, hcrit0⟩ := Option.map_eq_some'.mp h1
    have hcrit : latest.critique = o.critiques k' := hcrit0
    have hq : cfg.targetQuality ≤ latest.critique.score := by
      rw [hcrit]
      simpa using H2
    have hdec : shouldContinueRefinement L cfg = (false, "quality_achieved") :=
      sccr_quality cfg hL hq
    rw [loop_stop o b fuel' p L (by omega) (Or.inl (by rw [hdec]))]
    refine ⟨by simp [stopResult, hlen], ?_⟩
    simp only [stopResult]
    rw [if_neg (by omega), hdec]
  | succ m ih =>
    intro j hj fuel p L hfuel hlen hmap
    obtain ⟨fuel', rfl⟩ : ∃ f, fuel = f + 1 := ⟨fuel - 1, by omega⟩
    have hdec1 : (shouldContinueRefinement L cfg).1 = true := by
      rcases Nat.eq_zero_or_pos j with hj0 | hjpos
      · subst hj0
        have hnil : L = [] := List.length_eq_zero.mp hlen
        subst hnil
        rw [sccr_nil]
      · obtain ⟨j', rfl⟩ : ∃ t, j = t + 1 := ⟨j - 1, by omega⟩
        have h1 : (L.map (fun r => r.critique)).getLast? = some (o.critiques j') := by
          rw [hmap, List.range_succ, List.map_append]
          exact List.getLast?_concat _
        rw [List.getLast?_map] at h1
        obtain ⟨latest, hL, hcrit0⟩ := Option.map_eq_some'.mp h1
        have hcrit : latest.critique = o.critiques j' := hcrit0
        have hq : latest.critique.score < cfg.targetQuality := by
          rw [hcrit]
          exact H1 j' (by omega)
        have hm : L.length < cfg.maxIterations := by omega
        have ha : latest.critique.shouldContinue = true := by
          rw [hcrit]
          exact H4 j' (by omega)
        have hd : diminishingReturns L latest = false := by
          rcases Nat.lt_or_ge (j' + 1) 2 with hsmall | hbig
          · exact dim_short latest (by omega)
          · obtain ⟨j'', rfl⟩ : ∃ t, j' = t + 1 := ⟨j' - 1, by omega⟩
            have h2 : (L.map (fun r => r.critique)).get? j'' =
                some (o.critiques j'') := by
              rw [hmap, List.get?_map, List.get?_range (by omega)]
              rfl
            rw [List.get?_map] at h2
            obtain ⟨prev, hPrev0, hPc0⟩ := Option.map_eq_some'.mp h2
            have hPc : prev.critique = o.critiques j'' := hPc0
            have hidx : L.length - 2 = j'' := by omega
            refine dim_of_ge L latest prev (by omega) (by rw [hidx]; exact hPrev0) ?_
            rw [hcrit, hPc]
            exact H3 j'' (by omega)
        rw [sccr_continue cfg hL hq hm hd ha]
    have hbud : ((2 * j : ℕ) : ℤ) + 1 < (cfg.maxClaudeCalls : ℤ) - 1 := by omega
    rw [loop_continue o b fuel' p L (by omega) hdec1 hbud]
    have hlen' : (L ++ [mkRecord o b p L]).length = j + 1 := by simp [hlen]
    have hmap' : (L ++ [mkRecord o b p L]).map (fun r => r.critique) =
        (List.range (j + 1)).map o.critiques := by
      rw [List.map_append, hmap, List.range_succ, List.map_append]
      simp [mkRecord, hlen]
    have heq : 2 * j + 2 = 2 * (j + 1) := by ring
    rw [heq]
    exact ih (j + 1) (by omega) fuel' (nextPrompt o p L.length)
      (L ++ [mkRecord o b p L]) (by omega) hlen' hmap'

/-- C3 (amended). If the critique scores stay strictly below the target up
to call `k - 2` and first reach it at call `k - 1` (iteration k), then —
because the deciding step reads only the previously recorded iterations —
the loop stops at iteration `k + 1`, one iteration later than the claim
states, with reason `quality_achieved`; this requires the earlier scores
to also gain at least 0.3 per step where the (equally lagged)
diminishing-returns test looks, positive continuation advice up to call
`k - 2`, an iteration budget of at least `k`, and a call budget of at
least `2k + 3`. -/
theorem c3_amended (o : LoopOracle) (cfg : ImprovementConfig) (b : ℚ) (p : String)
    (k : ℕ) (hk : 1 ≤ k)
    (H1 : ∀ i, i + 2 ≤ k → (o.critiques i).score < cfg.targetQuality)
    (H2 : cfg.targetQuality ≤ (o.critiques (k - 1)).score)
    (H3 : ∀ i, i + 3 ≤ k → 3/10 ≤ (o.critiques (i + 1)).score - (o.critiques i).score)
    (H4 : ∀ i, i + 2 ≤ k → (o.critiques i).shouldContinue = true)
    (H5 : k ≤ cfg.maxIterations)
    (H6 : 2 * k + 3 ≤ cfg.maxClaudeCalls) :
    (selfRefinePrompt o cfg b p).totalIterations = k + 1 ∧
    (selfRefinePrompt o cfg b p).convergenceReason = "quality_achieved" := by
  have h := c3_run o cfg b k hk H1 H2 H3 H4 H5 H6 k 0 (by omega) cfg.maxClaudeCalls p []
    (by omega) rfl (by simp)
  simpa [selfRefinePrompt] using h

/-- An oracle scoring 5 then 9 with positive advice (target first reached
at iteration 2). -/
def oC3W : LoopOracle :=
  { critiques := fun n => if n = 0 then critOf 5 true else critOf 9 true
    improves := fun _ => some "q" }

/-- Witness for the amended C3 at k = 2: scores 5, 9 against target 8 stop
at iteration 3 with `quality_achieved`. -/
theorem c3_amended_witness :
    (selfRefinePrompt oC3W cfgC3 0 "p").totalIterations = 3 ∧
    (selfRefinePrompt oC3W cfgC3 0 "p").convergenceReason = "quality_achieved" := by
  have h := c3_amended oC3W cfgC3 0 "p" 2 (by omega)
    (fun i hi => by
      have hi0 : i = 0 := by omega
      subst hi0
      norm_num [oC3W, critOf, cfgC3])
    (by norm_num [oC3W, critOf, cfgC3])
    (fun i hi => by omega)
    (fun i hi => by
      have hi0 : i = 0 := by omega
      subst hi0
      rfl)
    (by norm_num [cfgC3])
    (by norm_num [cfgC3])
  exact h

/-! ## C4: diminishing-returns stopping iteration -/

/-- Run lemma for C4: with critique scores 5 then 5.1 (gain 0.1 < 0.3),
positive advice on the first critique, target above 5.1, at least 3
allowed iterations and at least 7 allowed calls, the loop runs a third
iteration and only then stops with `diminishing_returns`: the lagged
deciding step first sees the [5, 5.1] pair after the third critique. -/
theorem c4_run (o : LoopOracle) (cfg : ImprovementConfig) (b : ℚ) (p : String)
    (h0s : (o.critiques 0).score = 5)
    (h0a : (o.critiques 0).shouldContinue = true)
    (h1s : (o.critiques 1).score = 51/10)
    (ht : 51/10 < cfg.targetQuality)
    (hmi : 3 ≤ cfg.maxIterations)
    (hmc : 7 ≤ cfg.maxClaudeCalls) :
    (selfRefinePrompt o cfg b p).totalIterations = 3 ∧
    (selfRefinePrompt o cfg b p).convergenceReason = "diminishing_returns" := by
  obtain ⟨m, hm⟩ : ∃ m, cfg.maxClaudeCalls = m + 7 :=
    ⟨cfg.maxClaudeCalls - 7, by omega⟩
  have h5t : (5 : ℚ) < cfg.targetQuality := lt_trans (by norm_num) ht
  unfold selfRefinePrompt
  rw [hm, show m + 7 = m + 6 + 1 from rfl,
    loop_continue o b (m + 6) p [] (by omega) (by rw [sccr_nil]) (by omega)]
  simp only [List.nil_append, List.length_nil, Nat.zero_add]
  have hr1c : (mkRecord o b p []).critique = o.critiques 0 := rfl
  have hlast1 : ([mkRecord o b p []] : List RefinementIteration).getLast? =
      some (mkRecord o b p []) := rfl
  have hdec1 : (shouldContinueRefinement [mkRecord o b p []] cfg).1 = true := by
    rw [sccr_continue cfg hlast1 (by rw [hr1c, h0s]; exact h5t)
      (by simp; omega) (dim_short _ (by simp)) (by rw [hr1c]; exact h0a)]
  rw [show m + 6 = m + 5 + 1 from rfl,
    loop_continue o b (m + 5) (nextPrompt o p 0) [mkRecord o b p []]
      (by omega) hdec1 (by omega)]
  simp only [List.singleton_append, List.length_singleton]
  have hr2c : (mkRecord o b (nextPrompt o p 0) [mkRecord o b p []]).critique =
      o.critiques 1 := rfl
  have hlast2 : ([mkRecord o b p [],
        mkRecord o b (nextPrompt o p 0) [mkRecord o b p []]] :
        List RefinementIteration).getLast? =
      some (mkRecord o b (nextPrompt o p 0) [mkRecord o b p []]) := rfl
  have hdec2 : shouldContinueRefinement
      [mkRecord o b p [], mkRecord o b (nextPrompt o p 0) [mkRecord o b p []]] cfg =
      (false, "diminishing_returns") := by
    refine sccr_dim cfg hlast2 (by rw [hr2c, h1s]; exact ht) (by simp; omega) ?_
    refine dim_of_lt _ _ (mkRecord o b p []) (by simp) rfl ?_
    rw [hr2c, hr1c, h1s, h0s]
    norm_num
  rw [show m + 5 = m + 4 + 1 from rfl,
    loop_stop o b (m + 4) _ _ (by omega) (Or.inl (by rw [hdec2]))]
  constructor
  · simp [stopResult]
  · simp only [stopResult]
    rw [if_neg (by omega), hdec2]

/-- The C4 oracle: scores 5, then 5.1 on every later critique, advice
positive throughout. -/
def oC4 : LoopOracle :=
  { critiques := fun n => if n = 0 then critOf 5 true else critOf (51/10) true
    improves := fun _ => some "q" }

/-- Target 9 with ample budget: the C4 premise (target not reached, budget
not exhausted). -/
def cfgC4 : ImprovementConfig :=
  { targetQuality := 9, maxIterations := 10, maxClaudeCalls := 20 }

/-- C4 counterexample: with the score sequence [5, 5.1] (gain 0.1 < 0.3),
target not reached, ample budget and positive advice, the loop does not
stop after iteration 2: it performs a third critique and stops after
iteration 3 (totalIterations = 3), because the deciding step only sees the
[5, 5.1] pair one iteration late. -/
theorem c4_counterexample :
    (oC4.critiques 0).score = 5 ∧
    (oC4.critiques 1).score = 51/10 ∧
    (selfRefinePrompt oC4 cfgC4 0 "p").totalIterations = 3 ∧
    (selfRefinePrompt oC4 cfgC4 0 "p").convergenceReason = "diminishing_returns" := by
  have h := c4_run oC4 cfgC4 0 "p" (by norm_num [oC4, critOf]) rfl
    (by norm_num [oC4, critOf]) (by norm_num [cfgC4]) (by norm_num [cfgC4])
    (by norm_num [cfgC4])
  exact ⟨by norm_num [oC4, critOf], by norm_num [oC4, critOf], h.1, h.2⟩

/-- C4 (amended). For every run whose critiques return the score sequence
[5.0, 5.1] (gain 0.1 < 0.3) with positive advice on the first critique,
targetQuality above 5.1, at least 3 allowed iterations and at least 7
allowed calls, the loop stops after iteration 3 — one critique later than
the claim states — with convergenceReason `diminishing_returns`. -/
theorem c4_amended (o : LoopOracle) (cfg : ImprovementConfig) (b : ℚ) (p : String)
    (h0s : (o.critiques 0).score = 5)
    (h0a : (o.critiques 0).shouldContinue = true)
    (h1s : (o.critiques 1).score = 51/10)
    (ht : 51/10 < cfg.targetQuality)
    (hmi : 3 ≤ cfg.maxIterations)
    (hmc : 7 ≤ cfg.maxClaudeCalls) :
    (selfRefinePrompt o cfg b p).totalIterations = 3 ∧
    (selfRefinePrompt o cfg b p).convergenceReason = "diminishing_returns" :=
  c4_run o cfg b p h0s h0a h1s ht hmi hmc

/-- The C4 witness oracle: like `oC4` but failing improvement calls, to
exercise a different concrete run of the amended statement. -/
def oC4W : LoopOracle :=
  { critiques := fun n => if n = 0 then critOf 5 true else critOf (51/10) true
    improves := fun _ => none }

/-- Witness for the amended C4 at a concrete input. -/
theorem c4_amended_witness :
    (selfRefinePrompt oC4W cfgC4 0 "w").totalIterations = 3 ∧
    (selfRefinePrompt oC4W cfgC4 0 "w").convergenceReason = "diminishing_returns" :=
  c4_amended oC4W cfgC4 0 "w" (by norm_num [oC4W, critOf]) rfl
    (by norm_num [oC4W, critOf]) (by norm_num [cfgC4]) (by norm_num [cfgC4])
    (by norm_num [cfgC4])

/-! ## C5: critique score sanitisation and fallback -/

/-- A parsed critique with an in-range overall score but an out-of-range
clarity sub-score. -/
def rawC5 : RawCritique :=
  { score := some 7
    clarity := 11
    effectiveness := 3
    completeness := 3
    improvements := []
    concerns := []
    recommendation := ""
    shouldContinue := true }

/-- C5 counterexample: `getCritique` validates only the overall score; a
response whose clarity sub-score is 11 is returned with clarity 11, i.e.
outside [0,10] — the sub-scores are not clamped. -/
theorem c5_counterexample :
    (getCritique (some rawC5)).clarity = 11 ∧
    ¬ (getCritique (some rawC5)).clarity ≤ 10 := by
  constructor
  · rfl
  · rw [show (getCritique (some rawC5)).clarity = 11 from rfl]
    norm_num

/-- C5 (amended). The overall score returned by `getCritique` always lies
in [0,10] (a non-numeric or out-of-range score is replaced by 5, and the
parse-failure fallback scores 6 with `shouldContinue = false`); but the
clarity/effectiveness/completeness sub-scores are not validated at all and
pass through unchanged, so they are in [0,10] only if the oracle put them
there. -/
theorem c5_amended :
    (∀ parsed : Option RawCritique,
        0 ≤ (getCritique parsed).score ∧ (getCritique parsed).score ≤ 10) ∧
    (getCritique none = fallbackCritique ∧ fallbackCritique.score = 6 ∧
      fallbackCritique.shouldContinue = false) ∧
    (∀ raw : RawCritique,
        (getCritique (some raw)).clarity = raw.clarity ∧
        (getCritique (some raw)).effectiveness = raw.effectiveness ∧
        (getCritique (some raw)).completeness = raw.completeness ∧
        (getCritique (some raw)).shouldContinue = raw.shouldContinue) := by
  refine ⟨?_, ⟨rfl, rfl, rfl⟩, fun raw => ⟨rfl, rfl, rfl, rfl⟩⟩
  intro parsed
  cases parsed with
  | none =>
    constructor <;> norm_num [getCritique, fallbackCritique]
  | some c =>
    cases hs : c.score with
    | none =>
      simp only [getCritique, hs]
      norm_num
    | some s =>
      simp only [getCritique, hs]
      by_cases hrange : s < 0 ∨ 10 < s
      · rw [if_pos hrange]
        norm_num
      · rw [if_neg hrange]
        push_neg at hrange
        exact ⟨hrange.1, le_of_not_lt (by push_neg; exact hrange.2)⟩

/-! ## C6: behaviour after a failed improvement call -/

/-- An oracle whose first improvement call fails and whose critiques score
5 with positive advice. -/
def oC6 : LoopOracle :=
  { critiques := fun _ => critOf 5 true
    improves := fun n => if n = 0 then none else some "q2" }

/-- Target 9, two allowed iterations, twenty allowed calls. -/
def cfgC6 : ImprovementConfig :=
  { targetQuality := 9, maxIterations := 2, maxClaudeCalls := 20 }

/-- C6 counterexample: the improvement call of iteration 1 fails (the unit
stays unchanged — iteration 2 still records prompt "p"), yet the loop does
not stop: after the failure at counted call 2 it issues three more counted
calls (critique, retried improve, critique; `totalClaudeCalls = 5`) before
stopping for an unrelated reason. -/
theorem c6_counterexample :
    oC6.improves 0 = none ∧
    ((selfRefinePrompt oC6 cfgC6 0 "p").iterations.get? 1).map (fun r => r.prompt) =
      some "p" ∧
    (selfRefinePrompt oC6 cfgC6 0 "p").totalIterations = 3 ∧
    (selfRefinePrompt oC6 cfgC6 0 "p").totalClaudeCalls = 5 := by
  decide

/-- C6 (amended). When the improvement call of an iteration fails, the
unit entering the next iteration is unchanged (`nextPrompt` returns the
input prompt, and the next iteration's record still carries that prompt);
but the loop does not treat this as a stop: whenever the budget allows,
it issues at least one further counted oracle call (`totalClaudeCalls`
reaches `c + 3` from counter value `c` at the start of the failing
iteration). -/
theorem c6_amended (o : LoopOracle) (cfg : ImprovementConfig) (b : ℚ) (fuel : ℕ)
    (p : String) (c : ℕ) (L : List RefinementIteration)
    (h1 : c < cfg.maxClaudeCalls)
    (h2 : (shouldContinueRefinement L cfg).1 = true)
    (h3 : (c : ℤ) + 1 < (cfg.maxClaudeCalls : ℤ) - 1)
    (hfail : o.improves L.length = none) :
    nextPrompt o p L.length = p ∧
    ((selfRefineLoop o cfg b (fuel + 2) p c L).iterations.get? (L.length + 1)).map
      (fun r => r.prompt) = some p ∧
    c + 3 ≤ (selfRefineLoop o cfg b (fuel + 2) p c L).totalClaudeCalls := by
  have hnp : nextPrompt o p L.length = p := by
    unfold nextPrompt
    rw [hfail]
  have hstep := loop_continue o b (fuel + 1) p L h1 h2 h3
  rw [hnp] at hstep
  rw [show fuel + 2 = fuel + 1 + 1 from rfl, hstep]
  have hguard2 : c + 2 < cfg.maxClaudeCalls := by omega
  have hlen1 : (L ++ [mkRecord o b p L]).length = L.length + 1 := by simp
  refine ⟨hnp, ?_, ?_⟩
  · by_cases hstop2 : (shouldContinueRefinement (L ++ [mkRecord o b p L]) cfg).1 = false ∨
        ((c + 2 : ℕ) : ℤ) + 1 ≥ (cfg.maxClaudeCalls : ℤ) - 1
    · rw [loop_stop o b fuel p (L ++ [mkRecord o b p L]) hguard2 hstop2]
      simp only [stopResult]
      rw [show L.length + 1 = (L ++ [mkRecord o b p L]).length from hlen1.symm,
        List.get?_concat_length]
      simp [mkRecord]
    · push_neg at hstop2
      obtain ⟨ha, hb⟩ := hstop2
      rw [loop_continue o b fuel p (L ++ [mkRecord o b p L]) hguard2 (by simpa using ha) hb]
      obtain ⟨M, hM⟩ := loop_iterations_extend o cfg b fuel
        (nextPrompt o p (L ++ [mkRecord o b p L]).length) (c + 2 + 2)
        ((L ++ [mkRecord o b p L]) ++ [mkRecord o b p (L ++ [mkRecord o b p L])])
      rw [hM]
      rw [List.get?_append (by simp)]
      rw [show L.length + 1 = (L ++ [mkRecord o b p L]).length from hlen1.symm,
        List.get?_concat_length]
      simp [mkRecord]
  · have h := loop_calls_ge_one o b fuel p (L ++ [mkRecord o b p L]) hguard2
    exact h

/-- An oracle that fails every improvement call. -/
def oC6W : LoopOracle :=
  { critiques := fun _ => critOf 5 true
    improves := fun _ => none }

/-- Witness for the amended C6 at a concrete input: from the initial state
with budget 20, the failing improvement leaves iteration 2's prompt at
"p" and the run still reaches at least 3 counted calls. -/
theorem c6_amended_witness :
    nextPrompt oC6W "p" 0 = "p" ∧
    ((selfRefineLoop oC6W cfgC4 0 2 "p" 0 []).iterations.get? 1).map
      (fun r => r.prompt) = some "p" ∧
    3 ≤ (selfRefineLoop oC6W cfgC4 0 2 "p" 0 []).totalClaudeCalls := by
  have h := c6_amended oC6W cfgC4 0 0 "p" 0 [] (by decide) (by rw [sccr_nil]) (by decide) rfl
  exact ⟨h.1, h.2.1, h.2.2⟩

/-! ## C7: the pipeline's budget skip threshold -/

/-- Budget of exactly one oracle call. -/
def cfgC7 : ImprovementConfig :=
  { targetQuality := 8, maxIterations := 3, maxClaudeCalls := 1 }

/-- C7 counterexample: with `maxClaudeCalls = 1` and zero calls issued,
exactly one call remains before the first layer, yet every layer —
including the first — is recorded as skipped with `claude_call_limit` and
no call is attempted: the source skips whenever `claudeCalls ≥
maxClaudeCalls - 1`, i.e. already when one call remains, not only when
fewer than one remains. -/
theorem c7_counterexample :
    cfgC7.maxClaudeCalls = 1 ∧
    (enhance (fun _ => some "x") cfgC7 "p").claudeCalls = 0 ∧
    (enhance (fun _ => some "x") cfgC7 "p").layerResults.map (fun r => r.skipReason) =
      List.replicate 5 (some "claude_call_limit") := by
  decide

/-- Reasons produced by `shouldSkipLayer` are never the budget reason. -/
theorem shouldSkipLayer_ne_budget {layer : EnhancementLayer} {p : String}
    {reason : String} (h : shouldSkipLayer layer p = some reason) :
    reason ≠ "claude_call_limit" := by
  unfold shouldSkipLayer at h
  split_ifs at h <;> simp only [Option.some.injEq] at h <;> subst h <;> decide

/-- C7 (amended). A layer is recorded as skipped with reason
`claude_call_limit`, without an oracle call being attempted, exactly when
at most one call remains in the budget (`claudeCalls ≥ maxClaudeCalls - 1`,
i.e. remaining budget ≤ 1); when at least two calls remain the layer is
not budget-skipped (its record never carries `claude_call_limit`), so a
layer is attempted only with two or more remaining calls. -/
theorem c7_amended :
    (∀ (applies : ℕ → Option String) (maxC : ℕ) (layer : EnhancementLayer)
        (rest : List EnhancementLayer) (p : String) (c a : ℕ) (prev : List String),
        (c : ℤ) ≥ (maxC : ℤ) - 1 →
        enhanceGo applies maxC (layer :: rest) p c a prev =
          { enhanceGo applies maxC rest p c a prev with
            layerResults := skippedRecord layer p "claude_call_limit" ::
              (enhanceGo applies maxC rest p c a prev).layerResults }) ∧
    (∀ (applies : ℕ → Option String) (maxC : ℕ) (layer : EnhancementLayer)
        (rest : List EnhancementLayer) (p : String) (c a : ℕ) (prev : List String)
        (r : EnhancementResult) (rs : List EnhancementResult),
        (c : ℤ) < (maxC : ℤ) - 1 →
        (enhanceGo applies maxC (layer :: rest) p c a prev).layerResults = r :: rs →
        r.skipReason ≠ some "claude_call_limit") := by
  constructor
  · intro applies maxC layer rest p c a prev h
    simp only [enhanceGo]
    rw [if_pos h]
  · intro applies maxC layer rest p c a prev r rs hlt heq
    simp only [enhanceGo] at heq
    rw [if_neg (not_le.mpr hlt)] at heq
    cases hskip : shouldSkipLayer layer p with
    | some reason =>
      rw [hskip] at heq
      simp only [List.cons.injEq] at heq
      obtain ⟨hr, -⟩ := heq
      rw [← hr]
      simp only [skippedRecord, ne_eq, Option.some.injEq]
      exact shouldSkipLayer_ne_budget hskip
    | none =>
      rw [hskip] at heq
      cases happ : applies a with
      | some enhanced =>
        rw [happ] at heq
        dsimp only at heq
        by_cases hv : layer.validate p enhanced = true
        · rw [hv] at heq
          simp only [if_true, List.cons.injEq] at heq
          obtain ⟨hr, -⟩ := heq
          rw [← hr]
          simp
        · rw [Bool.not_eq_true] at hv
          rw [hv] at heq
          simp only [Bool.false_eq_true, if_false, List.cons.injEq] at heq
          obtain ⟨hr, -⟩ := heq
          rw [← hr]
          simp
      | none =>
        rw [happ] at heq
        simp only [List.cons.injEq] at heq
        obtain ⟨hr, -⟩ := heq
        rw [← hr]
        simp [skippedRecord]

/-- A marker-free prompt of length ≥ 50 (no skip condition of the first
layer fires on it). -/
def pW : String := "please write a function that reverses a string in typescript"

/-- Witness for the amended C7: with budget 1 the first layer's record is
the budget skip (at most one call remains), and with budget 20 the first
layer's record does not carry `claude_call_limit` (two or more calls
remain; here the layer is attempted and fails validation). -/
theorem c7_amended_witness :
    (enhanceGo (fun _ => some "x") 1 [structureLayer] "p" 0 0 []).layerResults =
      [skippedRecord structureLayer "p" "claude_call_limit"] ∧
    ({ layerName := "Structure & Clarity"
       originalPrompt := pW
       enhancedPrompt := pW
       validationPassed := false
       skipped := false
       skipReason := none } : EnhancementResult).skipReason ≠
      some "claude_call_limit" := by
  constructor
  · rw [c7_amended.1 (fun _ => some "x") 1 structureLayer [] "p" 0 0 [] (by decide)]
    rfl
  · exact c7_amended.2 (fun _ => some pW) 20 structureLayer [] pW 0 0 [] _ []
      (by decide) (by decide)

/-! ## C10: frame effect of a failed validation -/

/-- C10. When a layer's apply call succeeds but its validate predicate
rejects the candidate, the pipeline still counts the call
(`claudeCalls + 1`) while the current prompt and the accepted-layers list
`previousLayers` enter the rest of the pipeline unchanged; the layer's
record is applied-but-failed (not skipped). -/
theorem c10_failed_validation_frame (applies : ℕ → Option String) (maxC : ℕ)
    (layer : EnhancementLayer) (rest : List EnhancementLayer) (p enhanced : String)
    (c a : ℕ) (prev : List String)
    (hbud : (c : ℤ) < (maxC : ℤ) - 1)
    (hskip : shouldSkipLayer layer p = none)
    (happ : applies a = some enhanced)
    (hval : layer.validate p enhanced = false) :
    enhanceGo applies maxC (layer :: rest) p c a prev =
      { enhanceGo applies maxC rest p (c + 1) (a + 1) prev with
        layerResults :=
          { layerName := layer.name
            originalPrompt := p
            enhancedPrompt := enhanced
            validationPassed := false
            skipped := false
            skipReason := none } ::
          (enhanceGo applies maxC rest p (c + 1) (a + 1) prev).layerResults } := by
  simp only [enhanceGo]
  rw [if_neg (not_le.mpr hbud), hskip, happ]
  dsimp only
  rw [hval]
  simp

/-- Witness for C10 at a concrete input: the first layer's candidate (the
unchanged prompt) fails the structure validation; the counter reads 1 and
prompt and accepted-layers list are unchanged. -/
theorem c10_failed_validation_frame_witness :
    structureLayer.validate pW pW = false ∧
    (enhanceGo (fun _ => some pW) 20 [structureLayer] pW 0 0 []).claudeCalls = 1 ∧
    (enhanceGo (fun _ => some pW) 20 [structureLayer] pW 0 0 []).currentPrompt = pW ∧
    (enhanceGo (fun _ => some pW) 20 [structureLayer] pW 0 0 []).previousLayers = [] := by
  have h := c10_failed_validation_frame (fun _ => some pW) 20 structureLayer [] pW pW
    0 0 [] (by decide) (by decide) rfl (by decide)
  refine ⟨by decide, ?_, ?_, ?_⟩ <;> rw [h] <;> rfl

/-! ## C8: cache idempotence and lazy expiry -/

/-- `callClaude` with a cache key, unfolded one step. -/
theorem callClaude_some_key (σ : CacheState) (now : ℤ) (key : String)
    (o : Option String) :
    callClaude σ now (some key) o =
      match cacheGet σ now key with
      | (some cached, σ') => (some cached, σ', 0)
      | (none, σ') =>
        match o with
        | some result => (some (jsTrim result), cacheSet σ' now key (jsTrim result), 1)
        | none => (none, σ', 1) := rfl

/-- `cacheGet` on a present entry, unfolded one step. -/
theorem cacheGet_entry (σ : CacheState) (now : ℤ) (key : String) (e : CacheEntry)
    (he : σ key = some e) :
    cacheGet σ now key =
      if now - e.timestamp < RefineCache.maxAge then (some e.response, σ)
      else (none, cacheDelete σ key) := by
  unfold cacheGet
  rw [he]

/-- C8. (i) If a call through the cached wrapper misses the cache and the
oracle succeeds (it returns with one oracle invocation), then any second
call with the identical key made within `maxAge` of the first returns the
previously cached value, leaves the cache unchanged, and issues zero
oracle invocations. (ii) An entry older than `maxAge` is treated as absent
by `get` and evicted lazily on that read. -/
theorem c8_cache_idempotent :
    (∀ (σ : CacheState) (t0 : ℤ) (key v r : String) (σ₁ : CacheState),
        callClaude σ t0 (some key) (some v) = (some r, σ₁, 1) →
        ∀ (t1 : ℤ) (o2 : Option String), t1 - t0 < RefineCache.maxAge →
          callClaude σ₁ t1 (some key) o2 = (some r, σ₁, 0)) ∧
    (∀ (σ : CacheState) (now : ℤ) (key : String) (e : CacheEntry),
        σ key = some e → RefineCache.maxAge ≤ now - e.timestamp →
        cacheGet σ now key = (none, cacheDelete σ key) ∧
        cacheDelete σ key key = none) := by
  constructor
  · intro σ t0 key v r σ₁ hcall t1 o2 ht
    rw [callClaude_some_key] at hcall
    rcases hget : cacheGet σ t0 key with ⟨res, σ'⟩
    rw [hget] at hcall
    cases res with
    | some cached =>
      simp only [Prod.mk.injEq] at hcall
      exact absurd hcall.2.2 (by norm_num)
    | none =>
      simp only [Prod.mk.injEq] at hcall
      obtain ⟨hr, hσ, -⟩ := hcall
      have hrv : r = jsTrim v := (Option.some.inj hr).symm
      subst hrv
      have hk : σ₁ key = some ⟨jsTrim v, t0⟩ := by
        rw [← hσ]
        simp [cacheSet]
      have hg : cacheGet σ₁ t1 key = (some (jsTrim v), σ₁) := by
        rw [cacheGet_entry σ₁ t1 key ⟨jsTrim v, t0⟩ hk, if_pos (by simpa using ht)]
      rw [callClaude_some_key, hg]
  · intro σ now key e he hold
    constructor
    · rw [cacheGet_entry σ now key e he, if_neg (not_lt.mpr hold)]
    · simp [cacheDelete]

/-- The empty cache. -/
def emptyCache : CacheState := fun _ => none

/-- The loop's critique key for the prompt "myprompt". -/
def keyW : String := generateKey "myprompt" "critique"

/-- Witness for C8 at concrete inputs: after a miss at time 0 caches
`jsTrim " r "`, a second call at time 5 hits with zero invocations; and an
entry created at time 0 read at time 3600000 is absent and evicted. -/
theorem c8_cache_idempotent_witness :
    callClaude (cacheSet (cacheDelete emptyCache keyW) 0 keyW (jsTrim " r ")) 5
        (some keyW) none =
      (some (jsTrim " r "), cacheSet (cacheDelete emptyCache keyW) 0 keyW (jsTrim " r "), 0) ∧
    cacheGet (cacheSet emptyCache 0 keyW "v") 3600000 keyW =
      (none, cacheDelete (cacheSet emptyCache 0 keyW "v") keyW) ∧
    cacheDelete (cacheSet emptyCache 0 keyW "v") keyW keyW = none := by
  have h2 := c8_cache_idempotent.2 (cacheSet emptyCache 0 keyW "v") 3600000 keyW
    ⟨"v", 0⟩ (by simp [cacheSet]) (by decide)
  refine ⟨?_, h2.1, h2.2⟩
  exact c8_cache_idempotent.1 emptyCache 0 keyW " r " (jsTrim " r ")
    (cacheSet (cacheDelete emptyCache keyW) 0 keyW (jsTrim " r ")) rfl 5 none (by decide)
